import Mathlib

/-!
Verification of the loading-schedule extraction pipeline
(src/python-parser/parser.py).

The Python module is embedded shallowly: strings become `String`
(analysed as `List Char`), page coordinates become `Int`, the float
confidence scores become exact rationals, and each compiled regular
expression becomes an item list interpreted by a small backtracking
matcher with the same leftmost / greedy / first-alternative preference
order as the `re` module.  Fallible extraction steps return `Option`.
-/

namespace LoadingSchedule

/-! ## Character classes (ASCII fragment of the re module classes) -/

/-- The re module class `\w`: letters, digits and underscore. -/
def isWordChar (c : Char) : Bool := c.isAlphanum || c = '_'

/-- The re module class `\s`. -/
def isSpaceChar (c : Char) : Bool :=
  c = ' ' || c = '\t' || c = '\n' || c = '\r' || c = '\x0b' || c = '\x0c'

/-- The character class `[-:\s]` used by FRR_LEGACY_REGEX. -/
def isSepChar (c : Char) : Bool := c = '-' || c = ':' || isSpaceChar c

/-- The character class `[A-Z]` used by MEMBER_MARK_REGEX (no re.I flag). -/
def isUpperChar (c : Char) : Bool := 'A' ≤ c && c ≤ 'Z'

/-- Case-insensitive character comparison, for patterns compiled with re.I. -/
def lowerEq (a b : Char) : Bool := a.toLower = b.toLower

/-- Python str.strip: drop leading and trailing whitespace. -/
def stripC (s : List Char) : List Char :=
  ((s.dropWhile isSpaceChar).reverse.dropWhile isSpaceChar).reverse

/-- Python str.isdigit: nonempty and all characters are digits. -/
def isDigitStr (s : List Char) : Bool := !s.isEmpty && s.all Char.isDigit

/-- Numeric value of a digit string, as Python int(). -/
def digitsToNat (s : List Char) : Nat :=
  s.foldl (fun n c => n * 10 + (c.toNat - '0'.toNat)) 0

/-- Python " ".join over a list of strings (as char lists). -/
def intercalateC (sep : List Char) : List (List Char) → List Char
  | [] => []
  | [x] => x
  | x :: y :: rest => x ++ sep ++ intercalateC sep (y :: rest)

/-- Substring test: Python `needle in hay`. -/
def isPrefixC : List Char → List Char → Bool
  | [], _ => true
  | _ :: _, [] => false
  | p :: ps, c :: cs => p = c && isPrefixC ps cs

/-- Substring containment, Python `needle in hay`. -/
def containsC : List Char → List Char → Bool
  | [], needle => needle.isEmpty
  | c :: rest, needle => isPrefixC needle (c :: rest) || containsC rest needle

/-! ## A tiny backtracking regex interpreter

Each compiled pattern of the source becomes a `List RItem`.  The
interpreter reproduces the re module preference order: alternatives are
tried left to right, repetitions are greedy and backtrack from the
longest run, and searching returns the leftmost successful start
position.  `matchItems` returns, per item, the characters it consumed
(the capture groups of the source patterns are recovered from these
chunks), together with the last consumed character (for later word
boundary tests) and the unconsumed rest.  Fuel bounds the recursion
depth; one backtracking path consumes at most the remaining input plus
a small constant per item, so `length + 50` fuel is never exhausted for
the patterns below. -/

inductive RItem where
  | wb
  | lit (ci : Bool) (cs : List Char)
  | alts (ci : Bool) (cs : List (List Char))
  | rep (p : Char → Bool) (lo : Nat) (hi : Option Nat)

/-- Strip a literal (case-insensitively when `ci`), returning the actual
consumed characters and the rest. -/
def stripLit (ci : Bool) : List Char → List Char → Option (List Char × List Char)
  | [], s => some ([], s)
  | _ :: _, [] => none
  | p :: ps, c :: cs =>
    if (if ci then lowerEq p c else p = c) then
      (stripLit ci ps cs).map (fun r => (c :: r.1, r.2))
    else none

/-- Previous character after additionally consuming `consumed`. -/
def newPrev (prev : Option Char) (consumed : List Char) : Option Char :=
  match consumed.getLast? with
  | some c => some c
  | none => prev

/-- A pending engine call: a plain item sequence, an alternation being
tried alternative by alternative, or a repetition with the characters it
has consumed so far (in reverse). -/
inductive EngineQ where
  | items (items : List RItem)
  | alting (ci : Bool) (ls : List (List Char)) (rest : List RItem)
  | repping (p : Char → Bool) (lo : Nat) (hi : Option Nat) (rest : List RItem) (acc : List Char)

/-- The backtracking interpreter, as one structural recursion on fuel so
that it reduces inside the kernel. -/
def engine : Nat → EngineQ → Option Char → List Char →
    Option (List (List Char) × Option Char × List Char)
  | 0, _, _, _ => none
  | fuel + 1, q, prev, s =>
    match q with
    | .items [] => some ([], prev, s)
    | .items (RItem.wb :: rest) =>
      let pw := match prev with | some c => isWordChar c | none => false
      let nw := match s with | c :: _ => isWordChar c | [] => false
      if pw ≠ nw then
        (engine fuel (.items rest) prev s).map (fun r => ([] :: r.1, r.2.1, r.2.2))
      else none
    | .items (RItem.lit ci l :: rest) =>
      match stripLit ci l s with
      | some (con, r) =>
        (engine fuel (.items rest) (newPrev prev con) r).map
          (fun r2 => (con :: r2.1, r2.2.1, r2.2.2))
      | none => none
    | .items (RItem.alts ci ls :: rest) => engine fuel (.alting ci ls rest) prev s
    | .items (RItem.rep p lo hi :: rest) => engine fuel (.repping p lo hi rest []) prev s
    | .alting _ [] _ => none
    | .alting ci (l :: ls) rest =>
      match stripLit ci l s with
      | some (con, r) =>
        match engine fuel (.items rest) (newPrev prev con) r with
        | some (cs, lp, r2) => some (con :: cs, lp, r2)
        | none => engine fuel (.alting ci ls rest) prev s
      | none => engine fuel (.alting ci ls rest) prev s
    | .repping p lo hi rest acc =>
      let canMore := match hi with | some h => decide (acc.length < h) | none => true
      let stopHere : Option (List (List Char) × Option Char × List Char) :=
        if lo ≤ acc.length then
          (engine fuel (.items rest) prev s).map (fun r => (acc.reverse :: r.1, r.2.1, r.2.2))
        else none
      match s with
      | [] => stopHere
      | c :: srest =>
        if p c && canMore then
          match engine fuel (.repping p lo hi rest (c :: acc)) (some c) srest with
          | some r => some r
          | none => stopHere
        else stopHere

def matchItems (fuel : Nat) (items : List RItem) (prev : Option Char) (s : List Char) :
    Option (List (List Char) × Option Char × List Char) :=
  engine fuel (.items items) prev s

/-- re.search: try each start position from the left, tracking the
previous character for word-boundary tests. -/
def searchAux (items : List RItem) : Option Char → List Char → Option (List (List Char))
  | prev, [] => (matchItems 50 items prev []).map (fun r => r.1)
  | prev, c :: rest =>
    match matchItems (rest.length + 51) items prev (c :: rest) with
    | some (cs, _, _) => some cs
    | none => searchAux items (some c) rest

def search (items : List RItem) (s : List Char) : Option (List (List Char)) :=
  searchAux items none s

/-- re.findall: all non-overlapping matches, scanning left to right and
resuming after the end of each match. -/
def findAllAux (items : List RItem) : Nat → Option Char → List Char → List (List (List Char))
  | 0, _, _ => []
  | fuel + 1, prev, s =>
    match matchItems (s.length + 50) items prev s with
    | some (cs, lp, rest) =>
      if rest.length < s.length then cs :: findAllAux items fuel lp rest
      else
        match s with
        | [] => [cs]
        | c :: r => cs :: findAllAux items fuel (some c) r
    | none =>
      match s with
      | [] => []
      | c :: rest => findAllAux items fuel (some c) rest

def findAll (items : List RItem) (s : List Char) : List (List (List Char)) :=
  findAllAux items (s.length + 1) none s

/-! ## The five module-level patterns of parser.py -/

/-- SECTION_REGEX =
`\b(\d+\s*[xX]?\s*\d*\s*(?:UB|UC|WB|SHS|RHS|CHS|FB|WC|CWB|PFC|EA|UA)\s*\d*)\b`,
compiled with re.I. -/
def sectionItems : List RItem :=
  [ .wb,
    .rep Char.isDigit 1 none,
    .rep isSpaceChar 0 none,
    .alts true [['x'], []],
    .rep isSpaceChar 0 none,
    .rep Char.isDigit 0 none,
    .rep isSpaceChar 0 none,
    .alts true ["UB".data, "UC".data, "WB".data, "SHS".data, "RHS".data, "CHS".data,
                "FB".data, "WC".data, "CWB".data, "PFC".data, "EA".data, "UA".data],
    .rep isSpaceChar 0 none,
    .rep Char.isDigit 0 none,
    .wb ]

/-- Group 1 of SECTION_REGEX spans the whole match (the word boundaries
consume nothing), so it is the concatenation of all chunks. -/
def sectionSearch (s : List Char) : Option (List Char) :=
  (search sectionItems s).map List.flatten

/-- FRR_REGEX = `\bR(\d{2,3})\b`, re.I; returns the numeric value of group 1. -/
def frrItems : List RItem :=
  [ .wb, .lit true ['R'], .rep Char.isDigit 2 (some 3), .wb ]

def frrSearch (s : List Char) : Option Nat :=
  (search frrItems s).map (fun cs => digitsToNat (cs.getD 2 []))

/-- FRR_LEGACY_REGEX = `\bFRR[-:\s]*(\d+)`, re.I; returns the numeric
value of group 1. -/
def frrLegacyItems : List RItem :=
  [ .wb, .lit true "FRR".data, .rep isSepChar 0 none, .rep Char.isDigit 1 none ]

def frrLegacySearch (s : List Char) : Option Nat :=
  (search frrLegacyItems s).map (fun cs => digitsToNat (cs.getD 3 []))

/-- DFT_REGEX = `\b(\d{2,4})\s*(?:micron|μm|um|mic)?\b`, re.I; findall
yields the group-1 digit strings. -/
def dftItems : List RItem :=
  [ .wb,
    .rep Char.isDigit 2 (some 4),
    .rep isSpaceChar 0 none,
    .alts true ["micron".data, "μm".data, "um".data, "mic".data, []],
    .wb ]

def dftFindAll (s : List Char) : List Nat :=
  (findAll dftItems s).map (fun cs => digitsToNat (cs.getD 1 []))

/-- MEMBER_MARK_REGEX = `\b([A-Z]{1,3}\d+[A-Z]?)\b` (case-sensitive). -/
def memberItems : List RItem :=
  [ .wb,
    .rep isUpperChar 1 (some 3),
    .rep Char.isDigit 1 none,
    .rep isUpperChar 0 (some 1),
    .wb ]

def memberSearch (s : List Char) : Option (List Char) :=
  (search memberItems s).map List.flatten

/-! ## Field extraction helpers (parser.py lines 11-84) -/

/-- normalize_section: upper-case, strip, remove all whitespace, force
the dimension separator to lowercase x (re.sub "X" → "x", re.I). -/
def normalize_section (section_raw : String) : String :=
  let upperStripped := stripC (section_raw.data.map Char.toUpper)
  let noSpace := upperStripped.filter (fun c => !isSpaceChar c)
  String.mk (noSpace.map (fun c => if c = 'X' || c = 'x' then 'x' else c))

structure FrrData where
  frr_minutes : Nat
  frr_format : String
deriving Repr, DecidableEq

/-- The numeral normalize_frr parses before the whitelist test: the
FRR_REGEX match if any, else the FRR_LEGACY_REGEX match. -/
def frrParsedNumeral (s : List Char) : Option Nat :=
  match frrSearch s with
  | some n => some n
  | none => frrLegacySearch s

/-- normalize_frr: parse the rating numeral, reject values outside the
six standard ratings, and emit the minutes with the display format. -/
def normalize_frr (text : String) : Option FrrData :=
  match frrParsedNumeral text.data with
  | none => none
  | some minutes =>
    if minutes ∈ [30, 60, 90, 120, 180, 240] then
      some ⟨minutes, toString minutes ++ "/-/-"⟩
    else none

/-- extract_dft: first DFT_REGEX numeral whose value lies in [300, 3000]. -/
def extract_dft (text : String) : Option Nat :=
  (dftFindAll text.data).find? (fun v => 300 ≤ v && v ≤ 3000)

/-- extract_member_mark: first MEMBER_MARK_REGEX match. -/
def extract_member_mark (text : String) : Option String :=
  (memberSearch text.data).map String.mk

/-- The six coating product patterns, in source order (all re.I):
`(Nullifire\s+\w+)`, `(Carboline\s+\w+)`, `(Steelguard\s+\w+)`,
`(Chartek\s+\w+)`, `(Isolatek\s+\w+)`, `(\w+fire\s+\w+)`. -/
def coatingItems : List (List RItem) :=
  [ [.lit true "Nullifire".data, .rep isSpaceChar 1 none, .rep isWordChar 1 none],
    [.lit true "Carboline".data, .rep isSpaceChar 1 none, .rep isWordChar 1 none],
    [.lit true "Steelguard".data, .rep isSpaceChar 1 none, .rep isWordChar 1 none],
    [.lit true "Chartek".data, .rep isSpaceChar 1 none, .rep isWordChar 1 none],
    [.lit true "Isolatek".data, .rep isSpaceChar 1 none, .rep isWordChar 1 none],
    [.rep isWordChar 1 none, .lit true "fire".data, .rep isSpaceChar 1 none,
     .rep isWordChar 1 none] ]

def coatingAux : List (List RItem) → List Char → Option String
  | [], _ => none
  | pat :: ps, s =>
    match search pat s with
    | some cs => some (String.mk cs.flatten)
    | none => coatingAux ps s

/-- extract_coating_product: first pattern with a match, in listed order. -/
def extract_coating_product (text : String) : Option String :=
  coatingAux coatingItems text.data

/-- extract_element_type: case-insensitive substring priority list. -/
def extract_element_type (text : String) : Option String :=
  let lower := text.data.map Char.toLower
  if containsC lower "beam".data then some "beam"
  else if containsC lower "column".data || containsC lower "col".data then some "column"
  else if containsC lower "brace".data then some "brace"
  else none

/-! ## Rows and the validity gate (parser.py lines 86-143) -/

/-- A positioned text token from the layout engine.  The source also
requests fontname and size attributes but never reads them, so they are
omitted.  Coordinates are embedded as integers. -/
structure Token where
  text : String
  top : Int
  x0 : Int
deriving Repr, DecidableEq

structure Row where
  y : Int
  words : List Token
deriving Repr, DecidableEq

/-- The inner loop body of group_rows: scan existing rows in creation
order and append the word to the first row within tolerance, else
create a new row seeded at the word position. -/
def placeWord (tolerance : Int) : List Row → Token → List Row
  | [], w => [⟨w.top, [w]⟩]
  | r :: rest, w =>
    if |r.y - w.top| < tolerance then
      { r with words := r.words ++ [w] } :: rest
    else
      r :: placeWord tolerance rest w

/-- group_rows: stable-sort words by top, greedily assign each to the
first row within tolerance, then stable-sort each row by x0.  Python
`sorted`/`list.sort` are stable, and a stable sort by a key is unique
as a function of its input, so the structural `List.insertionSort`
(also stable) is the same function. -/
def group_rows (words : List Token) (tolerance : Int) : List Row :=
  let words_sorted := List.insertionSort (fun a b => a.top ≤ b.top) words
  let rows := words_sorted.foldl (placeWord tolerance) []
  rows.map (fun r => { r with words := List.insertionSort (fun a b => a.x0 ≤ b.x0) r.words })

/-- The flattened text of a row: `" ".join(w["text"] for w in row["words"])`. -/
def rowText (r : Row) : String :=
  String.mk (intercalateC [' '] (r.words.map (fun w => w.text.data)))

/-- The stitcher's fragment test on a row: its flattened text, stripped,
is all digits and at most two characters long. -/
def isFragmentRow (r : Row) : Bool :=
  let row_text := stripC (rowText r).data
  isDigitStr row_text && row_text.length ≤ 2

/-- The loop body of stitch_rows: short numeric fragments are appended
to the buffer (or silently dropped when no buffer exists), any other
row flushes the buffer and replaces it. -/
def stitchStep (acc : List Row × Option Row) (row : Row) : List Row × Option Row :=
  if isFragmentRow row then
    match acc.2 with
    | some b => (acc.1, some { b with words := b.words ++ row.words })
    | none => (acc.1, none)
  else
    match acc.2 with
    | some b => (acc.1 ++ [b], some row)
    | none => (acc.1, some row)

/-- Flushing the final buffer after the loop. -/
def stitchFlush (acc : List Row × Option Row) : List Row :=
  match acc.2 with
  | some b => acc.1 ++ [b]
  | none => acc.1

/-- stitch_rows: fold the rows through a pending buffer, then flush. -/
def stitch_rows (rows : List Row) : List Row :=
  stitchFlush (rows.foldl stitchStep ([], none))

/-- The row-stitching rule as worded in the specification (section 4.2):
a direct recursion over the rows carrying the pending buffer. -/
def stitchSpec : Option Row → List Row → List Row
  | none, [] => []
  | some b, [] => [b]
  | buf, r :: rs =>
    if isFragmentRow r then
      match buf with
      | some b => stitchSpec (some { b with words := b.words ++ r.words }) rs
      | none => stitchSpec none rs
    else
      match buf with
      | some b => b :: stitchSpec (some r) rs
      | none => stitchSpec (some r) rs

/-- is_valid_structural_row: section-size token, bare FRR token, and
length at least 10. -/
def is_valid_structural_row (text : String) : Bool :=
  if (sectionSearch text.data).isNone then false
  else if (frrSearch text.data).isNone then false
  else if text.length < 10 then false
  else true

/-! ## Per-row item assembly (parser.py lines 258-298 and 198-238) -/

structure ExtractedItem where
  page : Nat
  line : Nat
  raw_text : String
  member_mark : Option String
  section_size_raw : String
  section_size_normalized : String
  frr_minutes : Nat
  frr_format : String
  dft_required_microns : Option Nat
  coating_product : Option String
  element_type : Option String
  confidence : ℚ
  needs_review : Bool
deriving Repr

/-- The per-row body shared by the table path and the words path: the
validity gate, FRR normalization, section match, best-effort field
extraction and the two-valued confidence policy. -/
def extractItem (page : Nat) (line : Nat) (row_text : String) : Option ExtractedItem :=
  if !is_valid_structural_row row_text then none
  else
    match normalize_frr row_text with
    | none => none
    | some frr_data =>
      match sectionSearch row_text.data with
      | none => none
      | some section_raw =>
        let sectionNorm := normalize_section (String.mk section_raw)
        let dft_value := extract_dft row_text
        let member_mark := extract_member_mark row_text
        let coating := extract_coating_product row_text
        let element_type := extract_element_type row_text
        let needs_review := dft_value.isNone || member_mark.isNone
        let confidence : ℚ := if needs_review then 0.75 else 0.95
        some
          { page := page
            line := line
            raw_text := String.mk (stripC row_text.data)
            member_mark := member_mark
            section_size_raw := String.mk section_raw
            section_size_normalized := sectionNorm
            frr_minutes := frr_data.frr_minutes
            frr_format := frr_data.frr_format
            dft_required_microns := dft_value
            coating_product := coating
            element_type := element_type
            confidence := confidence
            needs_review := needs_review }

/-! ## Pages and the document loop (parser.py lines 145-343) -/

/-- One page as delivered by the layout engine: either its tables (a
list of tables, each a list of rows, each a list of optional cell
strings) together with its positioned words, or an exception raised
during extraction for that page. -/
inductive Page where
  | ok (tables : List (List (List (Option String)))) (words : List Token)
  | raises (msg : String)

/-- A document: either its pages, or a failure to open it at all. -/
inductive Document where
  | ok (pages : List Page)
  | openFails (msg : String)

/-- The cleaned table-row texts of a page: skip empty rows, join cells
with `" ".join(str(cell or "") ...)`, strip, and skip blank results. -/
def tableRowTexts (tables : List (List (List (Option String)))) : List String :=
  tables.flatMap (fun table =>
    table.filterMap (fun table_row =>
      if table_row.isEmpty then none
      else
        let row_text :=
          String.mk (stripC (intercalateC [' '] (table_row.map (fun cell => (cell.getD "").data))))
        if row_text = "" then none else some row_text))

structure DebugSample where
  text : String
  has_section : Bool
  has_frr : Bool
  page : Nat
  source : String
deriving Repr

def mkDebugSample (pn : Nat) (src : String) (row_text : String) : DebugSample :=
  { text := String.mk (row_text.data.take 100)
    has_section := (sectionSearch row_text.data).isSome
    has_frr := (frrSearch row_text.data).isSome
    page := pn
    source := src }

/-- The document accumulator: extracted items, page-level error strings
and the capped debug samples. -/
structure Acc where
  items : List ExtractedItem
  errors : List String
  debug : List DebugSample

/-- One candidate row, on either path: record a debug sample while fewer
than 10 are held and the text is longer than 15 characters, then run the
per-row extraction. -/
def rowStep (pn : Nat) (src : String) (acc : Acc) (entry : Nat × String) : Acc :=
  let acc1 :=
    if acc.debug.length < 10 ∧ entry.2.length > 15 then
      { acc with debug := acc.debug ++ [mkDebugSample pn src entry.2] }
    else acc
  match extractItem pn (entry.1 + 1) entry.2 with
  | some item => { acc1 with items := acc1.items ++ [item] }
  | none => acc1

/-- One page of the document loop: a raised exception is recorded as a
page error; a page with neither words nor table rows records an error;
table rows bypass grouping and stitching; otherwise the words are
grouped, stitched and extracted. -/
def pageRun (acc : Acc) (pn : Nat) (p : Page) : Acc :=
  match p with
  | .raises msg => { acc with errors := acc.errors ++ ["Page " ++ toString pn ++ ": " ++ msg] }
  | .ok tables words =>
    let table_rows := tableRowTexts tables
    if words.isEmpty ∧ table_rows.isEmpty then
      { acc with errors := acc.errors ++ ["Page " ++ toString pn ++ ": No text extracted"] }
    else if !table_rows.isEmpty then
      (table_rows.enum).foldl (rowStep pn "table") acc
    else
      let rows := stitch_rows (group_rows words 3)
      (((rows.map rowText)).enum).foldl (rowStep pn "words") acc

/-- The page loop, numbering pages from `pn` (enumerate start=1). -/
def runPages : Nat → Acc → List Page → Acc
  | _, acc, [] => acc
  | pn, acc, p :: ps => runPages (pn + 1) (pageRun acc pn p) ps

structure Metadata where
  total_pages : Option Nat
  errors : List String
  debug_samples : Option (List DebugSample)
deriving Repr

structure ParseResult where
  status : String
  error_code : Option String
  error_message : Option String
  items_extracted : Nat
  items : List ExtractedItem
  metadata : Metadata
deriving Repr

/-- Python str() of a bool, used in the diagnostic message. -/
def pyBool : Bool → String
  | true => "True"
  | false => "False"

def debugInfoString (samples : List DebugSample) : String :=
  samples.foldl
    (fun s sample =>
      s ++ "Page " ++ toString sample.page ++ ": " ++ sample.text ++ "\n"
        ++ "  - Has section size: " ++ pyBool sample.has_section ++ "\n"
        ++ "  - Has FRR rating: " ++ pyBool sample.has_frr ++ "\n")
    "\n\nSample rows found:\n"

/-- parse_loading_schedule: run all pages, then decide the terminal
result; a document that cannot be opened is converted into the
PARSER_ERROR result. -/
def parse_loading_schedule (doc : Document) : ParseResult :=
  match doc with
  | .openFails msg =>
    { status := "failed"
      error_code := some "PARSER_ERROR"
      error_message := some msg
      items_extracted := 0
      items := []
      metadata := { total_pages := none, errors := [msg], debug_samples := none } }
  | .ok pages =>
    let acc := runPages 1 ⟨[], [], []⟩ pages
    if acc.items.length = 0 then
      { status := "failed"
        error_code := some "NO_STRUCTURAL_ROWS_DETECTED"
        error_message := some
          ("No structural members detected. The parser requires rows with both section sizes (e.g., 610UB125) and FRR ratings (e.g., 60, 90, 120)."
            ++ debugInfoString acc.debug)
        items_extracted := 0
        items := []
        metadata :=
          { total_pages := some pages.length
            errors := acc.errors
            debug_samples := some acc.debug } }
    else
      { status := "completed"
        error_code := none
        error_message := none
        items_extracted := acc.items.length
        items := acc.items
        metadata :=
          { total_pages := some pages.length
            errors := acc.errors
            debug_samples := none } }

/-! ## Auxiliary predicates and concrete data used by the theorems -/

/-- A token whose text is nonempty and free of whitespace — the shape
every token produced by the layout engine's word extraction has. -/
def solidToken (w : Token) : Bool :=
  !w.text.data.isEmpty && w.text.data.all (fun c => !isSpaceChar c)

/-- A row with at least one token, all of them solid. -/
def solidRow (r : Row) : Bool := !r.words.isEmpty && r.words.all solidToken

/-- The item extracted from the specification's end-to-end scenario row. -/
def c6Item : ExtractedItem :=
  ⟨1, 1, "B10 610UB125 R60 450 Nullifire S707 Beam", some "B10",
    "610UB125", "610UB125", 60, "60/-/-", some 450, some "Nullifire S707",
    some "beam", 0.95, false⟩

/-- The tokens of the specification's end-to-end scenario page. -/
def scenarioTokens : List Token :=
  [⟨"B10", 100, 0⟩, ⟨"610UB125", 100, 10⟩, ⟨"R60", 100, 20⟩, ⟨"450", 100, 30⟩,
   ⟨"Nullifire", 100, 40⟩, ⟨"S707", 100, 50⟩, ⟨"Beam", 100, 60⟩]

/-- The items the whole document yields, page by page, numbering pages
from `pn`: the per-page item lists of the loop, written as a pure
recursion so that cross-page properties can be stated. -/
def pageItems (pn : Nat) (p : Page) : List ExtractedItem :=
  match p with
  | .raises _ => []
  | .ok tables words =>
    let table_rows := tableRowTexts tables
    if words.isEmpty ∧ table_rows.isEmpty then []
    else if !table_rows.isEmpty then
      (table_rows.enum).filterMap (fun e => extractItem pn (e.1 + 1) e.2)
    else
      let rows := stitch_rows (group_rows words 3)
      (((rows.map rowText)).enum).filterMap (fun e => extractItem pn (e.1 + 1) e.2)

/-- The page-level error strings a page contributes. -/
def pageErrors (pn : Nat) (p : Page) : List String :=
  match p with
  | .raises msg => ["Page " ++ toString pn ++ ": " ++ msg]
  | .ok tables words =>
    if words.isEmpty ∧ (tableRowTexts tables).isEmpty then
      ["Page " ++ toString pn ++ ": No text extracted"]
    else []

/-- The candidate rows a page offers to debug sampling, tagged with the
page number and the source name. -/
def pageCandidates (pn : Nat) (p : Page) : List (Nat × String × String) :=
  match p with
  | .raises _ => []
  | .ok tables words =>
    let table_rows := tableRowTexts tables
    if words.isEmpty ∧ table_rows.isEmpty then []
    else if !table_rows.isEmpty then table_rows.map (fun t => (pn, "table", t))
    else (stitch_rows (group_rows words 3)).map (fun r => (pn, "words", rowText r))

def itemsFrom : Nat → List Page → List ExtractedItem
  | _, [] => []
  | pn, p :: ps => pageItems pn p ++ itemsFrom (pn + 1) ps

def errorsFrom : Nat → List Page → List String
  | _, [] => []
  | pn, p :: ps => pageErrors pn p ++ errorsFrom (pn + 1) ps

def candidatesFrom : Nat → List Page → List (Nat × String × String)
  | _, [] => []
  | pn, p :: ps => pageCandidates pn p ++ candidatesFrom (pn + 1) ps

/-- The debug samples of a document, as the specification words them:
the first 10 candidate rows longer than 15 characters, annotated. -/
def debugSpec (pages : List Page) : List DebugSample :=
  (((candidatesFrom 1 pages).filter (fun e => 15 < e.2.2.length)).take 10).map
    (fun e => mkDebugSample e.1 e.2.1 e.2.2)

/-! ## Helper lemmas -/

theorem q95_ne_q75 : (0.95 : ℚ) ≠ 0.75 := by norm_num

/-- Whenever the per-row extraction emits an item, its FRR fields come
from normalize_frr, its optional fields from the best-effort extractors,
and its confidence from the two-valued policy. -/
theorem extractItem_fields {p l : Nat} {t : String} {item : ExtractedItem}
    (h : extractItem p l t = some item) :
    ∃ fd, normalize_frr t = some fd ∧
      item.frr_minutes = fd.frr_minutes ∧
      item.dft_required_microns = extract_dft t ∧
      item.member_mark = extract_member_mark t ∧
      item.needs_review = ((extract_dft t).isNone || (extract_member_mark t).isNone) ∧
      item.confidence =
        (if (extract_dft t).isNone || (extract_member_mark t).isNone then (0.75 : ℚ) else 0.95) := by
  unfold extractItem at h
  split at h
  · exact absurd h (by simp)
  · split at h
    · exact absurd h (by simp)
    · next fd hfd =>
      split at h
      · exact absurd h (by simp)
      · next secRaw hsec =>
        refine ⟨fd, hfd, ?_⟩
        obtain rfl := Option.some.inj h
        simp

theorem normalize_frr_minutes_mem {t : String} {fd : FrrData}
    (h : normalize_frr t = some fd) : fd.frr_minutes ∈ [30, 60, 90, 120, 180, 240] := by
  unfold normalize_frr at h
  split at h
  · exact absurd h (by simp)
  · next minutes _ =>
    split at h
    · next hmem =>
      obtain rfl := Option.some.inj h
      exact hmem
    · exact absurd h (by simp)

theorem normalize_frr_none_of_not_mem {t : String} {n : Nat}
    (hp : frrParsedNumeral t.data = some n) (hn : n ∉ [30, 60, 90, 120, 180, 240]) :
    normalize_frr t = none := by
  unfold normalize_frr
  rw [hp]
  simp [hn]

theorem extractItem_none_of_frr_none {p l : Nat} {t : String}
    (h : normalize_frr t = none) : extractItem p l t = none := by
  unfold extractItem
  split
  · rfl
  · rw [h]

theorem gate_false_of_frrSearch_none {t : String} (h : frrSearch t.data = none) :
    is_valid_structural_row t = false := by
  unfold is_valid_structural_row
  rw [h]
  split <;> simp

theorem extractItem_none_of_gate_false {p l : Nat} {t : String}
    (h : is_valid_structural_row t = false) : extractItem p l t = none := by
  unfold extractItem
  rw [h]
  simp

/-! ## Claims -/

/-- Claim C1, counterexample: a row of length at least 10 that contains
a section-size token and the rating only in the explicit FRR label form
(no bare R## token) does not pass the gate, and no item is emitted —
even though normalize_frr alone would fall back to the FRR: form. -/
theorem c1_gate_counterexample :
    ("610UB125 FRR: 60 Beam B1" : String).length ≥ 10 ∧
    (sectionSearch ("610UB125 FRR: 60 Beam B1" : String).data).isSome = true ∧
    frrSearch ("610UB125 FRR: 60 Beam B1" : String).data = none ∧
    frrLegacySearch ("610UB125 FRR: 60 Beam B1" : String).data = some 60 ∧
    normalize_frr "610UB125 FRR: 60 Beam B1" = some ⟨60, "60/-/-"⟩ ∧
    is_valid_structural_row "610UB125 FRR: 60 Beam B1" = false ∧
    extractItem 1 1 "610UB125 FRR: 60 Beam B1" = none :=
  ⟨by decide, rfl, rfl, rfl, rfl, rfl, rfl⟩

/-- Claim C1, amended: the validity gate tests only the bare R## form
of the rating, so every row whose text has no bare R## token fails the
gate and yields no item, whatever else the text contains; the FRR:
label fallback of normalize_frr is unreachable from the row pipeline. -/
theorem c1_gate_requires_bare_frr (t : String) (p l : Nat)
    (h : frrSearch t.data = none) :
    is_valid_structural_row t = false ∧ extractItem p l t = none := by
  have hg := gate_false_of_frrSearch_none h
  exact ⟨hg, extractItem_none_of_gate_false hg⟩

theorem c1_gate_requires_bare_frr_witness :
    frrSearch ("610UB125 FRR: 60" : String).data = none ∧
    (is_valid_structural_row "610UB125 FRR: 60" = false ∧
      extractItem 1 1 "610UB125 FRR: 60" = none) :=
  ⟨rfl, c1_gate_requires_bare_frr "610UB125 FRR: 60" 1 1 rfl⟩

/-- Row-level form of the whitelist invariant: a row that produces an
item always got its minutes through the normalize_frr whitelist. -/
theorem frr_mem_of_extractItem {p l : Nat} {t : String} {item : ExtractedItem}
    (h : extractItem p l t = some item) :
    item.frr_minutes ∈ [30, 60, 90, 120, 180, 240] := by
  obtain ⟨fd, hfd, hmin, -⟩ := extractItem_fields h
  rw [hmin]
  exact normalize_frr_minutes_mem hfd

/-- Row-level form of the confidence policy. -/
theorem confidence_policy_of_extractItem {t : String} {p l : Nat} {item : ExtractedItem}
    (h : extractItem p l t = some item) :
    (item.confidence = 0.95 ∨ item.confidence = 0.75) ∧
    (item.confidence = 0.95 ↔ (item.dft_required_microns.isSome ∧ item.member_mark.isSome)) ∧
    (item.needs_review = true ↔ item.confidence = 0.75) := by
  obtain ⟨fd, -, -, hdft, hmark, hnr, hconf⟩ := extractItem_fields h
  rw [hdft, hmark, hnr, hconf]
  cases hd : extract_dft t <;> cases hm : extract_member_mark t <;>
    simp [q95_ne_q75, Ne.symm q95_ne_q75]

/-- Claim C3: a page whose tokens flatten to the single row
"B10 610UB125 R60 450 Nullifire S707 Beam" yields exactly one item with
the stated field values. -/
theorem c3_end_to_end :
    parse_loading_schedule (.ok [.ok []
      [⟨"B10", 100, 0⟩, ⟨"610UB125", 100, 10⟩, ⟨"R60", 100, 20⟩, ⟨"450", 100, 30⟩,
       ⟨"Nullifire", 100, 40⟩, ⟨"S707", 100, 50⟩, ⟨"Beam", 100, 60⟩]]) =
      { status := "completed"
        error_code := none
        error_message := none
        items_extracted := 1
        items := [⟨1, 1, "B10 610UB125 R60 450 Nullifire S707 Beam", some "B10",
          "610UB125", "610UB125", 60, "60/-/-", some 450, some "Nullifire S707",
          some "beam", 0.95, false⟩]
        metadata := { total_pages := some 1, errors := [], debug_samples := none } } := rfl

/-! ## The stitcher: equivalence with its specification and idempotence -/

theorem stitchFlush_foldl (rows : List Row) :
    ∀ acc buf, stitchFlush (rows.foldl stitchStep (acc, buf)) = acc ++ stitchSpec buf rows := by
  induction rows with
  | nil =>
    intro acc buf
    cases buf <;> simp [stitchFlush, stitchSpec]
  | cons r rs ih =>
    intro acc buf
    rw [List.foldl_cons]
    by_cases hf : isFragmentRow r = true
    · cases buf with
      | none =>
        have hstep : stitchStep (acc, none) r = (acc, none) := by simp [stitchStep, hf]
        rw [hstep, ih]
        simp [stitchSpec, hf]
      | some b =>
        have hstep : stitchStep (acc, some b) r =
            (acc, some { b with words := b.words ++ r.words }) := by simp [stitchStep, hf]
        rw [hstep, ih]
        simp [stitchSpec, hf]
    · cases buf with
      | none =>
        have hstep : stitchStep (acc, none) r = (acc, some r) := by simp [stitchStep, hf]
        rw [hstep, ih]
        simp [stitchSpec, hf]
      | some b =>
        have hstep : stitchStep (acc, some b) r = (acc ++ [b], some r) := by
          simp [stitchStep, hf]
        rw [hstep, ih]
        simp [stitchSpec, hf]

theorem stitch_rows_eq_stitchSpec (rows : List Row) :
    stitch_rows rows = stitchSpec none rows := by
  unfold stitch_rows
  rw [stitchFlush_foldl rows [] none]
  simp

/-- Claim C5: the stitcher is the buffered pass the specification
describes — short all-digit rows of length at most 2 are absorbed into
the pending buffer (or dropped when no buffer exists yet), every other
row flushes the buffer and replaces it, and the final buffer is flushed
at the end. -/
theorem c5_stitch_buffer_semantics (rows : List Row) :
    stitch_rows rows = stitchSpec none rows :=
  stitch_rows_eq_stitchSpec rows

/-- Claim C4, counterexample: stitching is not idempotent on arbitrary
rows — a row whose single token text is empty, followed by a one-digit
fragment row, stitches to a row whose flattened text re-strips to that
digit, which a second pass then deletes. -/
theorem c4_stitch_not_idempotent_cex :
    stitch_rows (stitch_rows [⟨0, [⟨"", 0, 0⟩]⟩, ⟨5, [⟨"5", 5, 0⟩]⟩]) ≠
      stitch_rows [⟨0, [⟨"", 0, 0⟩]⟩, ⟨5, [⟨"5", 5, 0⟩]⟩] := by decide

theorem mem_of_head? {α : Type} {l : List α} {a : α} (h : l.head? = some a) : a ∈ l := by
  cases l with
  | nil => exact absurd h (by simp)
  | cons x xs =>
    obtain rfl : x = a := by simpa using h
    exact List.mem_cons_self ..

theorem mem_of_getLast? {α : Type} {l : List α} {a : α} (h : l.getLast? = some a) : a ∈ l := by
  rw [← List.head?_reverse] at h
  exact List.mem_reverse.mp (mem_of_head? h)

theorem dropWhile_eq_self_of_head (p : Char → Bool) :
    ∀ (l : List Char), (∀ c, l.head? = some c → p c = false) → l.dropWhile p = l
  | [], _ => rfl
  | c :: cs, h => by
    rw [List.dropWhile_cons, h c rfl]
    simp

theorem stripC_eq_self {l : List Char}
    (h1 : ∀ c, l.head? = some c → isSpaceChar c = false)
    (h2 : ∀ c, l.getLast? = some c → isSpaceChar c = false) : stripC l = l := by
  unfold stripC
  rw [dropWhile_eq_self_of_head _ _ h1]
  rw [dropWhile_eq_self_of_head _ _ (fun c hc => h2 c (by rwa [List.head?_reverse] at hc))]
  exact List.reverse_reverse l

theorem intercalate_ne_nil :
    ∀ (ts : List (List Char)), ts ≠ [] → (∀ t ∈ ts, t ≠ []) →
      intercalateC [' '] ts ≠ []
  | [], h, _ => absurd rfl h
  | [t], _, hne => by simpa [intercalateC] using hne t (List.mem_cons_self ..)
  | t :: t' :: r, _, _ => by simp [intercalateC]

theorem intercalate_head :
    ∀ (ts : List (List Char)), (∀ t ∈ ts, t ≠ []) →
      (∀ t ∈ ts, ∀ c ∈ t, isSpaceChar c = false) →
      ∀ c, (intercalateC [' '] ts).head? = some c → isSpaceChar c = false := by
  intro ts hne hs c hc
  cases ts with
  | nil => exact absurd hc (by simp [intercalateC])
  | cons t rest =>
    have ht := hne t (List.mem_cons_self ..)
    have hmem : c ∈ t := by
      cases t with
      | nil => exact absurd rfl ht
      | cons a as =>
        cases rest with
        | nil =>
          simp [intercalateC] at hc
          simp [hc]
        | cons t' r =>
          simp [intercalateC] at hc
          simp [hc]
    exact hs t (List.mem_cons_self ..) c hmem

theorem intercalate_last :
    ∀ (ts : List (List Char)), (∀ t ∈ ts, t ≠ []) →
      (∀ t ∈ ts, ∀ c ∈ t, isSpaceChar c = false) →
      ∀ c, (intercalateC [' '] ts).getLast? = some c → isSpaceChar c = false
  | [], _, _ => by intro c hc; exact absurd hc (by simp [intercalateC])
  | [t], hne, hs => by
    intro c hc
    exact hs t (List.mem_cons_self ..) c (mem_of_getLast? (by simpa [intercalateC] using hc))
  | t :: t' :: r, hne, hs => by
    intro c hc
    have hrest : ∀ u ∈ t' :: r, u ≠ [] := fun u hu => hne u (List.mem_cons_of_mem _ hu)
    have hsrest : ∀ u ∈ t' :: r, ∀ c ∈ u, isSpaceChar c = false :=
      fun u hu => hs u (List.mem_cons_of_mem _ hu)
    have hj : intercalateC [' '] (t' :: r) ≠ [] :=
      intercalate_ne_nil (t' :: r) (by simp) hrest
    have hshape : intercalateC [' '] (t :: t' :: r) =
        t ++ [' '] ++ intercalateC [' '] (t' :: r) := rfl
    rw [hshape, List.append_assoc, List.getLast?_append] at hc
    have hlast : (([' '] ++ intercalateC [' '] (t' :: r)).getLast? ) = some c := by
      rcases hlast2 : ([' '] ++ intercalateC [' '] (t' :: r)).getLast? with _ | d
      · have : [' '] ++ intercalateC [' '] (t' :: r) = [] := by
          simpa using List.getLast?_eq_none_iff.mp hlast2
        simp at this
      · rw [hlast2] at hc
        simpa using hc
    rw [List.getLast?_append] at hlast
    rcases hlast3 : (intercalateC [' '] (t' :: r)).getLast? with _ | d
    · exact absurd (List.getLast?_eq_none_iff.mp hlast3) hj
    · rw [hlast3] at hlast
      have hdc : d = c := by simpa using hlast
      rw [← hdc]
      exact intercalate_last (t' :: r) hrest hsrest d hlast3

theorem not_fragment_of_two_solid {y : Int} {ws : List Token}
    (h2 : 2 ≤ ws.length) (hs : ∀ w ∈ ws, solidToken w = true) :
    isFragmentRow ⟨y, ws⟩ = false := by
  have htne : ∀ t ∈ ws.map (fun w => w.text.data), t ≠ [] := by
    intro t ht
    obtain ⟨w, hw, rfl⟩ := List.mem_map.mp ht
    have := hs w hw
    unfold solidToken at this
    simp at this
    intro hempty
    rw [hempty] at this
    simp at this
  have hts : ∀ t ∈ ws.map (fun w => w.text.data), ∀ c ∈ t, isSpaceChar c = false := by
    intro t ht c hc
    obtain ⟨w, hw, rfl⟩ := List.mem_map.mp ht
    have := hs w hw
    unfold solidToken at this
    simp at this
    exact this.2 c hc
  have hj : (rowText ⟨y, ws⟩).data = intercalateC [' '] (ws.map (fun w => w.text.data)) := rfl
  have hstrip : stripC (rowText ⟨y, ws⟩).data = (rowText ⟨y, ws⟩).data := by
    rw [hj]
    exact stripC_eq_self
      (intercalate_head _ htne hts)
      (intercalate_last _ htne hts)
  have hspace : ' ' ∈ (rowText ⟨y, ws⟩).data := by
    rw [hj]
    match ws, h2 with
    | w₁ :: w₂ :: rest, _ =>
      show ' ' ∈ intercalateC [' '] (w₁.text.data :: w₂.text.data :: _)
      rw [show intercalateC [' '] (w₁.text.data :: w₂.text.data :: rest.map (fun w => w.text.data)) =
        w₁.text.data ++ [' '] ++ intercalateC [' '] (w₂.text.data :: rest.map (fun w => w.text.data)) from rfl]
      simp
  have hdig : isDigitStr (stripC (rowText ⟨y, ws⟩).data) = false := by
    rw [hstrip]
    unfold isDigitStr
    have : ((rowText ⟨y, ws⟩).data.all Char.isDigit) = false := by
      rw [List.all_eq_false]
      exact ⟨' ', hspace, by decide⟩
    simp [this]
  unfold isFragmentRow
  simp [hdig]

theorem stitchSpec_all_not_fragment :
    ∀ (rows : List Row), rows.all solidRow = true →
    ∀ (buf : Option Row),
      (∀ b, buf = some b → b.words ≠ [] ∧ (∀ w ∈ b.words, solidToken w = true) ∧
        isFragmentRow b = false) →
      ∀ r ∈ stitchSpec buf rows, isFragmentRow r = false := by
  intro rows
  induction rows with
  | nil =>
    intro _ buf hbuf r hr
    cases buf with
    | none => simp [stitchSpec] at hr
    | some b =>
      simp [stitchSpec] at hr
      rw [hr]
      exact (hbuf b rfl).2.2
  | cons row rs ih =>
    intro hall buf hbuf r hr
    rw [List.all_cons, Bool.and_eq_true] at hall
    obtain ⟨hrow, hrs⟩ := hall
    have hrowne : row.words ≠ [] := by
      unfold solidRow at hrow
      simp at hrow
      exact hrow.1
    have hrowsolid : ∀ w ∈ row.words, solidToken w = true := by
      unfold solidRow at hrow
      simp at hrow
      exact hrow.2
    by_cases hf : isFragmentRow row = true
    · cases buf with
      | none =>
        rw [show stitchSpec none (row :: rs) = stitchSpec none rs from by
          simp [stitchSpec, hf]] at hr
        exact ih hrs none (by intro b hb; cases hb) r hr
      | some b =>
        obtain ⟨hbne, hbsolid, -⟩ := hbuf b rfl
        rw [show stitchSpec (some b) (row :: rs) =
            stitchSpec (some { b with words := b.words ++ row.words }) rs from by
          simp [stitchSpec, hf]] at hr
        refine ih hrs _ ?_ r hr
        intro b' hb'
        obtain rfl := Option.some.inj hb'
        refine ⟨by simp [hbne], ?_, ?_⟩
        · intro w hw
          rcases List.mem_append.mp hw with h | h
          · exact hbsolid w h
          · exact hrowsolid w h
        · have hlen : 2 ≤ (b.words ++ row.words).length := by
            rw [List.length_append]
            have h1 : 1 ≤ b.words.length := List.length_pos.mpr hbne
            have h2 : 1 ≤ row.words.length := List.length_pos.mpr hrowne
            omega
          exact @not_fragment_of_two_solid b.y (b.words ++ row.words) hlen
            (by
              intro w hw
              rcases List.mem_append.mp hw with h | h
              · exact hbsolid w h
              · exact hrowsolid w h)
    · have hffalse : isFragmentRow row = false := by simpa using hf
      cases buf with
      | none =>
        rw [show stitchSpec none (row :: rs) = stitchSpec (some row) rs from by
          simp [stitchSpec, hffalse]] at hr
        exact ih hrs (some row)
          (by
            intro b hb
            obtain rfl := Option.some.inj hb
            exact ⟨hrowne, hrowsolid, hffalse⟩) r hr
      | some b =>
        rw [show stitchSpec (some b) (row :: rs) = b :: stitchSpec (some row) rs from by
          simp [stitchSpec, hffalse]] at hr
        rcases List.mem_cons.mp hr with hrb | hr2
        · rw [hrb]
          exact (hbuf b rfl).2.2
        · exact ih hrs (some row)
            (by
              intro b' hb'
              obtain rfl := Option.some.inj hb'
              exact ⟨hrowne, hrowsolid, hffalse⟩) r hr2

theorem stitchSpec_id_of_not_fragment :
    ∀ (rows : List Row), (∀ r ∈ rows, isFragmentRow r = false) →
      stitchSpec none rows = rows ∧ ∀ b, stitchSpec (some b) rows = b :: rows := by
  intro rows
  induction rows with
  | nil => exact fun _ => ⟨rfl, fun _ => rfl⟩
  | cons r rs ih =>
    intro h
    have hr : isFragmentRow r = false := h r (List.mem_cons_self ..)
    obtain ⟨h1, h2⟩ := ih (fun x hx => h x (List.mem_cons_of_mem _ hx))
    constructor
    · simp [stitchSpec, hr, h2 r]
    · intro b
      simp [stitchSpec, hr, h2 r]

/-- Claim C4, amended: stitching is idempotent on row lists whose rows
each hold at least one token and whose token texts are nonempty and
whitespace-free (the shape of real extracted words) — re-stitching the
output performs no further merges and drops no further rows. -/
theorem c4_stitch_idempotent_amended (rows : List Row)
    (h : rows.all solidRow = true) :
    stitch_rows (stitch_rows rows) = stitch_rows rows := by
  have hout : ∀ r ∈ stitchSpec none rows, isFragmentRow r = false :=
    stitchSpec_all_not_fragment rows h none (by intro b hb; cases hb)
  rw [stitch_rows_eq_stitchSpec rows, stitch_rows_eq_stitchSpec (stitchSpec none rows)]
  exact (stitchSpec_id_of_not_fragment _ hout).1

theorem c4_stitch_idempotent_amended_witness :
    ([⟨0, [⟨"B10", 0, 0⟩, ⟨"610UB125", 0, 5⟩]⟩, ⟨9, [⟨"0", 9, 0⟩]⟩] : List Row).all
      solidRow = true ∧
    stitch_rows (stitch_rows [⟨0, [⟨"B10", 0, 0⟩, ⟨"610UB125", 0, 5⟩]⟩, ⟨9, [⟨"0", 9, 0⟩]⟩]) =
      stitch_rows [⟨0, [⟨"B10", 0, 0⟩, ⟨"610UB125", 0, 5⟩]⟩, ⟨9, [⟨"0", 9, 0⟩]⟩] :=
  ⟨by decide, c4_stitch_idempotent_amended _ (by decide)⟩

/-! ## Characterizing the page loop -/

theorem rowStep_items (pn : Nat) (src : String) (acc : Acc) (e : Nat × String) :
    (rowStep pn src acc e).items =
      acc.items ++ match extractItem pn (e.1 + 1) e.2 with
        | some item => [item]
        | none => [] := by
  unfold rowStep
  cases hext : extractItem pn (e.1 + 1) e.2 <;> split <;> simp [hext]

theorem rowStep_errors (pn : Nat) (src : String) (acc : Acc) (e : Nat × String) :
    (rowStep pn src acc e).errors = acc.errors := by
  unfold rowStep
  cases hext : extractItem pn (e.1 + 1) e.2 <;> split <;> simp [hext]

theorem rowStep_debug (pn : Nat) (src : String) (acc : Acc) (e : Nat × String) :
    (rowStep pn src acc e).debug =
      acc.debug ++
        if acc.debug.length < 10 ∧ 15 < e.2.length then [mkDebugSample pn src e.2] else [] := by
  unfold rowStep
  cases hext : extractItem pn (e.1 + 1) e.2 <;> split <;> rename_i hcond <;> simp [hext, hcond]

theorem foldl_rowStep_items (pn : Nat) (src : String) :
    ∀ (l : List (Nat × String)) (acc : Acc),
      (l.foldl (rowStep pn src) acc).items =
        acc.items ++ l.filterMap (fun e => extractItem pn (e.1 + 1) e.2) := by
  intro l
  induction l with
  | nil => intro acc; simp
  | cons e rest ih =>
    intro acc
    rw [List.foldl_cons, ih, rowStep_items]
    cases hext : extractItem pn (e.1 + 1) e.2 <;>
      simp [List.filterMap_cons, hext]

theorem foldl_rowStep_errors (pn : Nat) (src : String) :
    ∀ (l : List (Nat × String)) (acc : Acc),
      (l.foldl (rowStep pn src) acc).errors = acc.errors := by
  intro l
  induction l with
  | nil => intro acc; rfl
  | cons e rest ih =>
    intro acc
    rw [List.foldl_cons, ih, rowStep_errors]

theorem foldl_rowStep_debug (pn : Nat) (src : String) :
    ∀ (l : List (Nat × String)) (acc : Acc),
      (l.foldl (rowStep pn src) acc).debug =
        acc.debug ++
          (((l.map Prod.snd).filter (fun t => 15 < t.length)).take
            (10 - acc.debug.length)).map (mkDebugSample pn src) := by
  intro l
  induction l with
  | nil => intro acc; simp
  | cons e rest ih =>
    intro acc
    rw [List.foldl_cons, ih, rowStep_debug]
    by_cases h1 : acc.debug.length < 10
    · by_cases h2 : 15 < e.2.length
      · have hfil : ((e :: rest).map Prod.snd).filter (fun t => 15 < t.length) =
            e.2 :: (rest.map Prod.snd).filter (fun t => 15 < t.length) := by
          simp [List.filter_cons, h2]
        have hlen : (acc.debug ++ [mkDebugSample pn src e.2]).length =
            acc.debug.length + 1 := by simp
        have harith : 10 - acc.debug.length = (10 - (acc.debug.length + 1)) + 1 := by omega
        simp only [h1, h2, and_self, if_true, hlen, hfil]
        rw [harith, List.take_succ_cons]
        simp [List.append_assoc]
      · simp [h1, h2, List.filter_cons]
    · have hz : 10 - acc.debug.length = 0 := by omega
      have hz2 : 10 - (acc.debug.length + 0) = 0 := by omega
      simp [h1, hz, List.filter_cons]

theorem pageRun_items (acc : Acc) (pn : Nat) (p : Page) :
    (pageRun acc pn p).items = acc.items ++ pageItems pn p := by
  cases p with
  | raises msg => simp [pageRun, pageItems]
  | ok tables words =>
    simp only [pageRun, pageItems]
    by_cases hempty : words.isEmpty ∧ (tableRowTexts tables).isEmpty
    · simp [hempty]
    · by_cases htab : (tableRowTexts tables).isEmpty
      · have hwne : words ≠ [] := fun hnil => hempty ⟨by simp [hnil], htab⟩
        simp [hempty, htab, hwne, foldl_rowStep_items]
      · simp [hempty, htab, foldl_rowStep_items]

theorem pageRun_errors (acc : Acc) (pn : Nat) (p : Page) :
    (pageRun acc pn p).errors = acc.errors ++ pageErrors pn p := by
  cases p with
  | raises msg => simp [pageRun, pageErrors]
  | ok tables words =>
    simp only [pageRun, pageErrors]
    by_cases hempty : words.isEmpty ∧ (tableRowTexts tables).isEmpty
    · simp [hempty]
    · by_cases htab : (tableRowTexts tables).isEmpty
      · have hwne : words ≠ [] := fun hnil => hempty ⟨by simp [hnil], htab⟩
        simp [hempty, htab, hwne, foldl_rowStep_errors]
      · simp [hempty, htab, foldl_rowStep_errors]

theorem pageRun_debug (acc : Acc) (pn : Nat) (p : Page) :
    (pageRun acc pn p).debug =
      acc.debug ++
        (((pageCandidates pn p).filter (fun e => 15 < e.2.2.length)).take
          (10 - acc.debug.length)).map (fun e => mkDebugSample e.1 e.2.1 e.2.2) := by
  cases p with
  | raises msg => simp [pageRun, pageCandidates]
  | ok tables words =>
    simp only [pageRun, pageCandidates]
    by_cases hempty : words.isEmpty ∧ (tableRowTexts tables).isEmpty
    · simp [hempty]
    · by_cases htab : (tableRowTexts tables).isEmpty
      · have hwne : words ≠ [] := fun hnil => hempty ⟨by simp [hnil], htab⟩
        simp [hempty, htab, hwne, foldl_rowStep_debug, List.filter_map,
          ← List.map_take, List.map_map, Function.comp]
        rfl
      · simp [hempty, htab, foldl_rowStep_debug, List.enum_map_snd, List.filter_map,
          ← List.map_take, List.map_map, Function.comp]
        rfl

theorem runPages_items : ∀ (ps : List Page) (pn : Nat) (acc : Acc),
    (runPages pn acc ps).items = acc.items ++ itemsFrom pn ps := by
  intro ps
  induction ps with
  | nil => intro pn acc; simp [runPages, itemsFrom]
  | cons p rest ih =>
    intro pn acc
    rw [show runPages pn acc (p :: rest) = runPages (pn + 1) (pageRun acc pn p) rest from rfl,
      ih, pageRun_items]
    simp [itemsFrom, List.append_assoc]

theorem runPages_errors : ∀ (ps : List Page) (pn : Nat) (acc : Acc),
    (runPages pn acc ps).errors = acc.errors ++ errorsFrom pn ps := by
  intro ps
  induction ps with
  | nil => intro pn acc; simp [runPages, errorsFrom]
  | cons p rest ih =>
    intro pn acc
    rw [show runPages pn acc (p :: rest) = runPages (pn + 1) (pageRun acc pn p) rest from rfl,
      ih, pageRun_errors]
    simp [errorsFrom, List.append_assoc]

theorem runPages_debug : ∀ (ps : List Page) (pn : Nat) (acc : Acc),
    (runPages pn acc ps).debug =
      acc.debug ++
        (((candidatesFrom pn ps).filter (fun e => 15 < e.2.2.length)).take
          (10 - acc.debug.length)).map (fun e => mkDebugSample e.1 e.2.1 e.2.2) := by
  intro ps
  induction ps with
  | nil => intro pn acc; simp [runPages, candidatesFrom]
  | cons p rest ih =>
    intro pn acc
    rw [show runPages pn acc (p :: rest) = runPages (pn + 1) (pageRun acc pn p) rest from rfl,
      ih, pageRun_debug]
    rw [show candidatesFrom pn (p :: rest) =
      pageCandidates pn p ++ candidatesFrom (pn + 1) rest from rfl]
    rw [List.filter_append, List.take_append_eq_append_take, List.map_append,
      List.append_assoc]
    congr 2
    have hlen : (acc.debug ++
        (((pageCandidates pn p).filter (fun e => 15 < e.2.2.length)).take
          (10 - acc.debug.length)).map (fun e => mkDebugSample e.1 e.2.1 e.2.2)).length =
        acc.debug.length +
          ((10 - acc.debug.length) ⊓
            ((pageCandidates pn p).filter (fun e => 15 < e.2.2.length)).length) := by
      simp [List.length_take]
    rw [hlen]
    have hamt : 10 - (acc.debug.length +
        ((10 - acc.debug.length) ⊓
          ((pageCandidates pn p).filter (fun e => 15 < e.2.2.length)).length)) =
        (10 - acc.debug.length) -
          ((pageCandidates pn p).filter (fun e => 15 < e.2.2.length)).length := by
      rcases Nat.le_total (10 - acc.debug.length)
          ((pageCandidates pn p).filter (fun e => 15 < e.2.2.length)).length with hle | hle
      · rw [Nat.min_eq_left hle]
        omega
      · rw [Nat.min_eq_right hle]
        omega
    rw [hamt]

theorem runPages_full (pages : List Page) :
    runPages 1 ⟨[], [], []⟩ pages =
      ⟨itemsFrom 1 pages, errorsFrom 1 pages, debugSpec pages⟩ := by
  have hi := runPages_items pages 1 ⟨[], [], []⟩
  have he := runPages_errors pages 1 ⟨[], [], []⟩
  have hd := runPages_debug pages 1 ⟨[], [], []⟩
  simp only [List.nil_append, List.length_nil, Nat.sub_zero] at hi he hd
  rw [show runPages 1 ⟨[], [], []⟩ pages =
    ⟨(runPages 1 ⟨[], [], []⟩ pages).items, (runPages 1 ⟨[], [], []⟩ pages).errors,
      (runPages 1 ⟨[], [], []⟩ pages).debug⟩ from rfl, hi, he, hd]
  rfl

theorem parse_ok_items (pages : List Page) :
    (parse_loading_schedule (.ok pages)).items = itemsFrom 1 pages := by
  simp only [parse_loading_schedule, runPages_full]
  split
  · next h =>
    simp only [List.length_eq_zero] at h
    exact h.symm
  · rfl

theorem parse_ok_errors (pages : List Page) :
    (parse_loading_schedule (.ok pages)).metadata.errors = errorsFrom 1 pages := by
  simp only [parse_loading_schedule, runPages_full]
  split <;> rfl

theorem parse_ok_total_pages (pages : List Page) :
    (parse_loading_schedule (.ok pages)).metadata.total_pages = some pages.length := by
  simp only [parse_loading_schedule, runPages_full]
  split <;> rfl

theorem itemsFrom_append : ∀ (xs ys : List Page) (pn : Nat),
    itemsFrom pn (xs ++ ys) = itemsFrom pn xs ++ itemsFrom (pn + xs.length) ys := by
  intro xs
  induction xs with
  | nil => intro ys pn; simp [itemsFrom]
  | cons x rest ih =>
    intro ys pn
    rw [show itemsFrom pn ((x :: rest) ++ ys) =
        pageItems pn x ++ itemsFrom (pn + 1) (rest ++ ys) from rfl,
      ih,
      show itemsFrom pn (x :: rest) = pageItems pn x ++ itemsFrom (pn + 1) rest from rfl,
      List.append_assoc]
    have harith : pn + 1 + rest.length = pn + (x :: rest).length := by
      rw [List.length_cons]
      omega
    rw [harith]

theorem errorsFrom_append : ∀ (xs ys : List Page) (pn : Nat),
    errorsFrom pn (xs ++ ys) = errorsFrom pn xs ++ errorsFrom (pn + xs.length) ys := by
  intro xs
  induction xs with
  | nil => intro ys pn; simp [errorsFrom]
  | cons x rest ih =>
    intro ys pn
    rw [show errorsFrom pn ((x :: rest) ++ ys) =
        pageErrors pn x ++ errorsFrom (pn + 1) (rest ++ ys) from rfl,
      ih,
      show errorsFrom pn (x :: rest) = pageErrors pn x ++ errorsFrom (pn + 1) rest from rfl,
      List.append_assoc]
    have harith : pn + 1 + rest.length = pn + (x :: rest).length := by
      rw [List.length_cons]
      omega
    rw [harith]

/-- Every item a page contributes came out of the per-row extraction. -/
theorem mem_pageItems_extract {item : ExtractedItem} {pn : Nat} {p : Page}
    (h : item ∈ pageItems pn p) : ∃ q l t, extractItem q l t = some item := by
  cases p with
  | raises msg => simp [pageItems] at h
  | ok tables words =>
    simp only [pageItems] at h
    split at h
    · simp at h
    · split at h
      · rw [List.mem_filterMap] at h
        obtain ⟨e, -, hex⟩ := h
        exact ⟨pn, e.1 + 1, e.2, hex⟩
      · rw [List.mem_filterMap] at h
        obtain ⟨e, -, hex⟩ := h
        exact ⟨pn, e.1 + 1, e.2, hex⟩

theorem mem_itemsFrom_extract {item : ExtractedItem} :
    ∀ (ps : List Page) (pn : Nat), item ∈ itemsFrom pn ps →
      ∃ q l t, extractItem q l t = some item := by
  intro ps
  induction ps with
  | nil => intro pn h; simp [itemsFrom] at h
  | cons p rest ih =>
    intro pn h
    rw [show itemsFrom pn (p :: rest) = pageItems pn p ++ itemsFrom (pn + 1) rest from rfl,
      List.mem_append] at h
    rcases h with h | h
    · exact mem_pageItems_extract h
    · exact ih _ h

/-- Every item of a parse result came out of the per-row extraction. -/
theorem mem_parse_items_extract {item : ExtractedItem} {pages : List Page}
    (h : item ∈ (parse_loading_schedule (.ok pages)).items) :
    ∃ q l t, extractItem q l t = some item := by
  rw [parse_ok_items] at h
  exact mem_itemsFrom_extract pages 1 h

/-- Claim C2: every item the parser emits has frr_minutes in the
six-value whitelist; at row level, every extracted item was checked
against the whitelist, and a row whose parsed FRR numeral lies outside
the whitelist yields no item. -/
theorem c2_frr_minutes_whitelist (pages : List Page) (t : String) (p l : Nat) :
    (∀ item, item ∈ (parse_loading_schedule (.ok pages)).items →
      item.frr_minutes ∈ [30, 60, 90, 120, 180, 240]) ∧
    (∀ item, extractItem p l t = some item →
      item.frr_minutes ∈ [30, 60, 90, 120, 180, 240]) ∧
    (∀ n, frrParsedNumeral t.data = some n → n ∉ [30, 60, 90, 120, 180, 240] →
      extractItem p l t = none) := by
  refine ⟨?_, fun item h => frr_mem_of_extractItem h,
    fun n hp hn => extractItem_none_of_frr_none (normalize_frr_none_of_not_mem hp hn)⟩
  intro item h
  obtain ⟨q, l2, t2, hex⟩ := mem_parse_items_extract h
  exact frr_mem_of_extractItem hex

theorem c2_frr_minutes_whitelist_witness :
    c6Item.frr_minutes ∈ [30, 60, 90, 120, 180, 240] ∧
    extractItem 1 1 "B9 610UB125 R45 450 Nullifire S707 Beam" = none := by
  constructor
  · refine (c2_frr_minutes_whitelist [.ok [] scenarioTokens] "x" 1 1).1 c6Item ?_
    rw [show (parse_loading_schedule (.ok [.ok [] scenarioTokens])).items = [c6Item] from rfl]
    exact List.mem_cons_self ..
  · exact (c2_frr_minutes_whitelist [] "B9 610UB125 R45 450 Nullifire S707 Beam" 1 1).2.2
      45 rfl (by decide)

/-- Claim C6: for every emitted item, confidence is exactly 0.95 when
both DFT and member mark are present, exactly 0.75 otherwise, with no
other values possible, and needs_review holds exactly when confidence
is 0.75. -/
theorem c6_confidence_policy (pages : List Page) (t : String) (p l : Nat) :
    (∀ item, item ∈ (parse_loading_schedule (.ok pages)).items →
      (item.confidence = 0.95 ∨ item.confidence = 0.75) ∧
      (item.confidence = 0.95 ↔ (item.dft_required_microns.isSome ∧ item.member_mark.isSome)) ∧
      (item.needs_review = true ↔ item.confidence = 0.75)) ∧
    (∀ item, extractItem p l t = some item →
      (item.confidence = 0.95 ∨ item.confidence = 0.75) ∧
      (item.confidence = 0.95 ↔ (item.dft_required_microns.isSome ∧ item.member_mark.isSome)) ∧
      (item.needs_review = true ↔ item.confidence = 0.75)) := by
  refine ⟨?_, fun item h => confidence_policy_of_extractItem h⟩
  intro item h
  obtain ⟨q, l2, t2, hex⟩ := mem_parse_items_extract h
  exact confidence_policy_of_extractItem hex

theorem c6_confidence_policy_witness :
    (c6Item.confidence = 0.95 ∨ c6Item.confidence = 0.75) ∧
    (c6Item.confidence = 0.95 ↔
      (c6Item.dft_required_microns.isSome ∧ c6Item.member_mark.isSome)) ∧
    (c6Item.needs_review = true ↔ c6Item.confidence = 0.75) := by
  refine (c6_confidence_policy [.ok [] scenarioTokens] "x" 1 1).1 c6Item ?_
  rw [show (parse_loading_schedule (.ok [.ok [] scenarioTokens])).items = [c6Item] from rfl]
  exact List.mem_cons_self ..

/-- Claim C7, counterexample: the PARSER_ERROR result produced when the
document cannot be opened has no total_pages field in its metadata. -/
theorem c7_total_pages_missing_cex :
    (parse_loading_schedule (.openFails "cannot open document")).metadata.total_pages =
      none := rfl

/-- Claim C7, amended: every result carries a metadata errors list, and
results for documents that opened carry total_pages (the page count) —
but the document-level PARSER_ERROR result carries only the errors
list, with no total_pages field. -/
theorem c7_metadata_fields (pages : List Page) (msg : String) :
    (parse_loading_schedule (.ok pages)).metadata.total_pages = some pages.length ∧
    (parse_loading_schedule (.ok pages)).metadata.errors = errorsFrom 1 pages ∧
    (parse_loading_schedule (.openFails msg)).metadata.total_pages = none ∧
    (parse_loading_schedule (.openFails msg)).metadata.errors = [msg] :=
  ⟨parse_ok_total_pages pages, parse_ok_errors pages, rfl, rfl⟩

/-- Claim C8: an exception on one page is recorded as a page-level
error string and leaves the items of all other pages intact; a document
that cannot be opened yields the structured PARSER_ERROR result with
zero items (the embedding of parse is total, so no failure escapes). -/
theorem c8_page_failures_isolated (pre post : List Page) (msg : String) :
    ((parse_loading_schedule (.ok (pre ++ .raises msg :: post))).items =
      itemsFrom 1 pre ++ itemsFrom (pre.length + 2) post) ∧
    (("Page " ++ toString (pre.length + 1) ++ ": " ++ msg) ∈
      (parse_loading_schedule (.ok (pre ++ .raises msg :: post))).metadata.errors) ∧
    (∀ m : String, parse_loading_schedule (.openFails m) =
      ⟨"failed", some "PARSER_ERROR", some m, 0, [], ⟨none, [m], none⟩⟩) := by
  refine ⟨?_, ?_, fun m => rfl⟩
  · rw [parse_ok_items, itemsFrom_append]
    rw [show itemsFrom (1 + pre.length) (Page.raises msg :: post) =
      pageItems (1 + pre.length) (.raises msg) ++ itemsFrom (1 + pre.length + 1) post from rfl]
    rw [show pageItems (1 + pre.length) (.raises msg) = [] from rfl]
    rw [show 1 + pre.length + 1 = pre.length + 2 from by omega]
    simp
  · rw [parse_ok_errors, errorsFrom_append]
    rw [show errorsFrom (1 + pre.length) (Page.raises msg :: post) =
      pageErrors (1 + pre.length) (.raises msg) ++ errorsFrom (1 + pre.length + 1) post from rfl]
    rw [show pageErrors (1 + pre.length) (.raises msg) =
      ["Page " ++ toString (1 + pre.length) ++ ": " ++ msg] from rfl]
    rw [show 1 + pre.length = pre.length + 1 from by omega]
    exact List.mem_append.mpr (Or.inr (List.mem_append.mpr (Or.inl (List.mem_cons_self ..))))

/-- Claim C9: a document in which no row yields an item returns the
failed NO_STRUCTURAL_ROWS_DETECTED result with no items and with debug
samples equal to the first 10 candidate rows longer than 15 characters,
each annotated with its section-size and FRR match flags. -/
theorem c9_zero_items_failure (pages : List Page) (h : itemsFrom 1 pages = []) :
    parse_loading_schedule (.ok pages) =
      ⟨"failed", some "NO_STRUCTURAL_ROWS_DETECTED",
        some ("No structural members detected. The parser requires rows with both section sizes (e.g., 610UB125) and FRR ratings (e.g., 60, 90, 120)."
          ++ debugInfoString (debugSpec pages)),
        0, [],
        ⟨some pages.length, errorsFrom 1 pages, some (debugSpec pages)⟩⟩ := by
  simp only [parse_loading_schedule, runPages_full, h]
  rfl

theorem c9_zero_items_failure_witness :
    itemsFrom 1 [.ok [] [⟨"no", 0, 0⟩, ⟨"structural", 0, 10⟩, ⟨"rows", 0, 20⟩, ⟨"here", 0, 30⟩]]
      = [] ∧
    parse_loading_schedule (.ok
      [.ok [] [⟨"no", 0, 0⟩, ⟨"structural", 0, 10⟩, ⟨"rows", 0, 20⟩, ⟨"here", 0, 30⟩]]) =
      ⟨"failed", some "NO_STRUCTURAL_ROWS_DETECTED",
        some ("No structural members detected. The parser requires rows with both section sizes (e.g., 610UB125) and FRR ratings (e.g., 60, 90, 120)."
          ++ debugInfoString (debugSpec
            [.ok [] [⟨"no", 0, 0⟩, ⟨"structural", 0, 10⟩, ⟨"rows", 0, 20⟩, ⟨"here", 0, 30⟩]])),
        0, [],
        ⟨some 1,
          errorsFrom 1
            [.ok [] [⟨"no", 0, 0⟩, ⟨"structural", 0, 10⟩, ⟨"rows", 0, 20⟩, ⟨"here", 0, 30⟩]],
          some (debugSpec
            [.ok [] [⟨"no", 0, 0⟩, ⟨"structural", 0, 10⟩, ⟨"rows", 0, 20⟩, ⟨"here", 0, 30⟩]])⟩⟩ :=
  ⟨rfl, c9_zero_items_failure _ rfl⟩

/-! ## The row grouper is a partition of its input tokens -/

theorem placeWord_flatten_perm (tol : Int) :
    ∀ (rows : List Row) (w : Token),
      (((placeWord tol rows w).map Row.words).flatten).Perm
        (w :: ((rows.map Row.words).flatten)) := by
  intro rows
  induction rows with
  | nil => intro w; simp [placeWord]
  | cons r rest ih =>
    intro w
    by_cases hd : |r.y - w.top| < tol
    · simp only [placeWord, hd, if_true, List.map_cons, List.flatten_cons]
      have h1 : r.words ++ [w] ++ ((rest.map Row.words).flatten) =
          r.words ++ w :: ((rest.map Row.words).flatten) := by
        simp
      rw [h1]
      exact List.perm_middle
    · simp only [placeWord, hd, if_false, List.map_cons, List.flatten_cons]
      refine (List.Perm.append_left r.words (ih w)).trans ?_
      exact List.perm_middle

theorem foldl_placeWord_perm (tol : Int) :
    ∀ (ws : List Token) (rows : List Row),
      (((ws.foldl (placeWord tol) rows).map Row.words).flatten).Perm
        (((rows.map Row.words).flatten) ++ ws) := by
  intro ws
  induction ws with
  | nil => intro rows; simp
  | cons w ws ih =>
    intro rows
    rw [List.foldl_cons]
    refine (ih (placeWord tol rows w)).trans ?_
    refine (List.Perm.append_right ws (placeWord_flatten_perm tol rows w)).trans ?_
    exact List.perm_middle.symm

theorem map_sortWords_flatten_perm :
    ∀ (rows : List Row),
      (((rows.map (fun r =>
        { r with words := List.insertionSort (fun a b => a.x0 ≤ b.x0) r.words })).map
          Row.words).flatten).Perm
        ((rows.map Row.words).flatten) := by
  intro rows
  induction rows with
  | nil => simp
  | cons r rest ih =>
    simp only [List.map_cons, List.flatten_cons]
    exact List.Perm.append (List.perm_insertionSort _ _) ih

theorem placeWord_words_ne_nil (tol : Int) :
    ∀ (rows : List Row) (w : Token), (∀ r ∈ rows, r.words ≠ []) →
      ∀ r ∈ placeWord tol rows w, r.words ≠ [] := by
  intro rows
  induction rows with
  | nil =>
    intro w _ r hr
    simp [placeWord] at hr
    rw [hr]
    simp
  | cons r0 rest ih =>
    intro w hall r hr
    by_cases hd : |r0.y - w.top| < tol
    · simp only [placeWord, hd, if_true] at hr
      rcases List.mem_cons.mp hr with h | h
      · rw [h]
        simp
      · exact hall r (List.mem_cons_of_mem _ h)
    · simp only [placeWord, hd, if_false] at hr
      rcases List.mem_cons.mp hr with h | h
      · rw [h]
        exact hall r0 (List.mem_cons_self ..)
      · exact ih w (fun x hx => hall x (List.mem_cons_of_mem _ hx)) r h

theorem foldl_placeWord_ne_nil (tol : Int) :
    ∀ (ws : List Token) (rows : List Row), (∀ r ∈ rows, r.words ≠ []) →
      ∀ r ∈ ws.foldl (placeWord tol) rows, r.words ≠ [] := by
  intro ws
  induction ws with
  | nil => intro rows hall r hr; exact hall r hr
  | cons w ws ih =>
    intro rows hall r hr
    rw [List.foldl_cons] at hr
    exact ih (placeWord tol rows w) (placeWord_words_ne_nil tol rows w hall) r hr

/-- Claim C10: group_rows partitions its input tokens — the tokens of
the output rows are a permutation of the input (none dropped, none
duplicated), every output row is nonempty, and the empty input yields
no rows. -/
theorem c10_group_rows_partition (tolerance : Int) (words : List Token) :
    (((group_rows words tolerance).map Row.words).flatten).Perm words ∧
    (∀ r ∈ group_rows words tolerance, r.words ≠ []) ∧
    group_rows [] tolerance = [] := by
  refine ⟨?_, ?_, rfl⟩
  · show ((((List.insertionSort (fun a b => a.top ≤ b.top) words).foldl
      (placeWord tolerance) []).map (fun r =>
        { r with words := List.insertionSort (fun a b => a.x0 ≤ b.x0) r.words })).map
          Row.words).flatten.Perm words
    refine (map_sortWords_flatten_perm _).trans ?_
    refine (foldl_placeWord_perm tolerance _ []).trans ?_
    simpa using List.perm_insertionSort (fun a b => a.top ≤ b.top) words
  · intro r hr
    have hr2 : r ∈ ((List.insertionSort (fun a b => a.top ≤ b.top) words).foldl
        (placeWord tolerance) []).map (fun r =>
          { r with words := List.insertionSort (fun a b => a.x0 ≤ b.x0) r.words }) := hr
    simp only [List.mem_map] at hr2
    obtain ⟨r0, hr0, rfl⟩ := hr2
    have h0 : r0.words ≠ [] :=
      foldl_placeWord_ne_nil tolerance _ [] (by simp) r0 hr0
    intro hnil
    apply h0
    have hlen := congrArg List.length hnil
    rw [List.length_insertionSort] at hlen
    exact List.length_eq_zero.mp hlen

end LoadingSchedule
